import Mathlib

/-!
Shallow embedding of the dolfinx variational-form / generic-tensor core:
`src/dolfin/la/Scalar.h` (the `Scalar` realization of the GenericTensor
interface, including its distributed `apply` reduction) and
`src/cpp/dolfin/fem/Form.h` (the `Form` class: argument spaces, coefficient
name/index lookup with optional override maps, element-tensor sizing).

C++ `double` values are modelled as `ℚ` (exact arithmetic); raw pointers to
value buffers are modelled as total functions `ℕ → ℚ` (pointer indexing
`block[0]` becomes `block 0`); `uint*` index arguments become `ℕ → ℕ` /
`List (List ℕ)` according to the C++ parameter shape.  Failing operations
(`error(...)` calls and failing `assert`s in the C++) return `Except`.
-/

namespace Dolfin

/-- Error taxonomy of the spec for tensor-contract violations:
`Scalar::resize` asserts `rank == 0` (UnsupportedRankError), and
`Scalar::size` / `Scalar::local_range` call `error(...)`
(UnsupportedOperationError). -/
inductive TensorError where
  | UnsupportedRankError
  | UnsupportedOperationError
deriving DecidableEq, Repr

/-- `Scalar` (src/dolfin/la/Scalar.h): a real-valued scalar quantity
implementing the GenericTensor interface for scalars.  State is the single
private member `double value`. -/
structure Scalar where
  value : ℚ
deriving DecidableEq, Repr

namespace Scalar

/-- Constructor `Scalar() : GenericTensor(), value(0.0)`. -/
def new : Scalar := ⟨0⟩

/-- `resize(uint rank, const uint* dims)`: `assert(rank == 0); value = 0.0;`.
The failing assert for `rank != 0` is modelled as `UnsupportedRankError`. -/
def resize (_s : Scalar) (rank : ℕ) (_dims : List ℕ) : Except TensorError Scalar :=
  if rank = 0 then .ok ⟨0⟩ else .error .UnsupportedRankError

/-- `init(sparsity_pattern)`: `value = 0.0;`. -/
def init (_s : Scalar) : Scalar := ⟨0⟩

/-- `copy()`: `Scalar* s = new Scalar(); s->value = value; return s;`
(value portion; heap freshness is modelled separately by `ScalarHeap`). -/
def copy (s : Scalar) : Scalar := ⟨s.value⟩

/-- `rank()`: `return 0;`. -/
def rank (_s : Scalar) : ℕ := 0

/-- `size(uint dim)`: `error("The size() function is not available for
scalars.")`. -/
def size (_s : Scalar) (_dim : ℕ) : Except TensorError ℕ :=
  .error .UnsupportedOperationError

/-- `local_range(uint dim)`: `error(...)`. -/
def local_range (_s : Scalar) (_dim : ℕ) : Except TensorError (ℕ × ℕ) :=
  .error .UnsupportedOperationError

/-- `get(double* block, const uint* num_rows, const uint* const* rows)`:
`block[0] = value;` — returns what is written through the out-pointer. -/
def get (s : Scalar) (_num_rows : ℕ → ℕ) (_rows : ℕ → ℕ → ℕ) : ℚ := s.value

/-- `set(const double* block, const uint* num_rows, const uint* const* rows)`:
`value = block[0];`. -/
def set (_s : Scalar) (block : ℕ → ℚ) (_num_rows : ℕ → ℕ) (_rows : ℕ → ℕ → ℕ) :
    Scalar := ⟨block 0⟩

/-- `add(const double* block, const uint* num_rows, const uint* const* rows)`:
`value += block[0];` (flat-counts overload). -/
def add (s : Scalar) (block : ℕ → ℚ) (_num_rows : ℕ → ℕ) (_rows : ℕ → ℕ → ℕ) :
    Scalar := ⟨s.value + block 0⟩

/-- `add(const double* block, const std::vector<const std::vector<uint>*>& rows)`:
`value += block[0];` (index-array-of-pointers overload). -/
def addRowPtrs (s : Scalar) (block : ℕ → ℚ) (_rows : List (List ℕ)) : Scalar :=
  ⟨s.value + block 0⟩

/-- `add(const double* block, const std::vector<std::vector<uint>>& rows)`:
`value += block[0];` (index-array-of-arrays overload). -/
def addRowVecs (s : Scalar) (block : ℕ → ℚ) (_rows : List (List ℕ)) : Scalar :=
  ⟨s.value + block 0⟩

/-- `zero()`: `value = 0.0;`. -/
def zero (_s : Scalar) : Scalar := ⟨0⟩

/-- `operator=(double value)`: `this->value = value;`. -/
def assign (_s : Scalar) (v : ℚ) : Scalar := ⟨v⟩

/-- `operator double()`: `return value;`. -/
def toRat (s : Scalar) : ℚ := s.value

/-- `getval()`: `return value;`. -/
def getval (s : Scalar) : ℚ := s.value

/-- Collective semantics of `apply(std::string mode)` over the whole
distributed group: `preValues` lists every process's pre-apply `value` in
rank order (`preValues.length = MPI::num_processes()`).  The C++ on each
process: if `MPI::num_processes() > 1`, build a rank-indexed buffer, set the
own slot, `MPI::gather` fills the rest rank-ordered, then
`value = std::accumulate(values.begin(), values.end(), 0.0)` — a rank-ordered
left fold from `0.0`; with one process the body is skipped entirely.  The
result lists every process's post-apply value in rank order. -/
def applyCollective (_mode : String) (preValues : List ℚ) : List ℚ :=
  if 1 < preValues.length then
    preValues.map (fun _ => preValues.foldl (· + ·) 0)
  else
    preValues

/-- A sequence of `add` calls (flat-counts overload) applied in order; the
index arguments are irrelevant to the `Scalar` realization so arbitrary ones
are passed. -/
def addAll (s : Scalar) (blocks : List (ℕ → ℚ)) : Scalar :=
  blocks.foldl (fun t b => t.add b (fun _ => 1) (fun _ _ => 0)) s

end Scalar

/-- Heap model for `Scalar::copy`'s aliasing claim: `new Scalar()` allocates a
fresh cell, so the store is a list of scalar values addressed by index, and
`copy` appends a fresh cell holding the source cell's value and returns its
(fresh) address, exactly as `Scalar* s = new Scalar(); s->value = value;
return s;`. -/
structure ScalarHeap where
  store : List ℚ
deriving DecidableEq, Repr

namespace ScalarHeap

/-- Read the `value` member of the `Scalar` at address `a`. -/
def read (h : ScalarHeap) (a : ℕ) : ℚ := h.store.getD a 0

/-- `copy()` called on the `Scalar` at address `a`: allocates a fresh cell
(the next unused address) holding the same value, returns (new heap, fresh
address). -/
def copy (h : ScalarHeap) (a : ℕ) : ScalarHeap × ℕ :=
  (⟨h.store ++ [h.read a]⟩, h.store.length)

/-- `add(block, …)` on the `Scalar` at address `a`: `value += block[0]`. -/
def addAt (h : ScalarHeap) (a : ℕ) (block : ℕ → ℚ) : ScalarHeap :=
  ⟨h.store.set a (h.read a + block 0)⟩

/-- `set(block, …)` on the `Scalar` at address `a`: `value = block[0]`. -/
def setAt (h : ScalarHeap) (a : ℕ) (block : ℕ → ℚ) : ScalarHeap :=
  ⟨h.store.set a (block 0)⟩

/-- `zero()` on the `Scalar` at address `a`: `value = 0.0`. -/
def zeroAt (h : ScalarHeap) (a : ℕ) : ScalarHeap :=
  ⟨h.store.set a 0⟩

/-- `operator=(double v)` on the `Scalar` at address `a`: `value = v`. -/
def assignAt (h : ScalarHeap) (a : ℕ) (v : ℚ) : ScalarHeap :=
  ⟨h.store.set a v⟩

end ScalarHeap

/-- `function::FunctionSpace` collaborator, reduced to the surface the Form
claims consult: the maximum number of per-element (local) degrees of
freedom. -/
structure FunctionSpace where
  max_element_dofs : ℕ
deriving DecidableEq, Repr

/-- Modelled from the spec: `FormCoefficients` (its header
`fem/FormCoefficients.h` and implementation are not under src/; only
`Form.h`'s use of it is).  The spec's CoefficientSet: an ordered registry of
named coefficient entries; the kernel descriptor's built-in map is
positional — name `i` is the `i`-th registered name, and a name's index is
its position in the registry. -/
structure FormCoefficients where
  names : List String
deriving DecidableEq, Repr

namespace FormCoefficients

/-- Modelled from the spec: built-in name→index lookup; a NotFound signal
(`none`), not a silent default, when the name is unregistered. -/
def get_index (c : FormCoefficients) (name : String) : Option ℕ :=
  if name ∈ c.names then some (c.names.indexOf name) else none

/-- Modelled from the spec: built-in index→name lookup; `none` when out of
range. -/
def get_name (c : FormCoefficients) (i : ℕ) : Option String :=
  c.names[i]?

end FormCoefficients

/-- `fem::Form` (src/cpp/dolfin/fem/Form.h), reduced to the members the
claims consult: `_function_spaces` (one `FunctionSpace` per argument, test
space first), `_coefficents`, and the optional override resolvers
`_coefficient_index_map` / `_coefficient_name_map` (absent by default).
Override maps return an `Option` to carry the NotFound signal. -/
structure Form where
  function_spaces : List FunctionSpace
  coefficients : FormCoefficients
  coefficient_index_map : Option (String → Option ℕ)
  coefficient_name_map : Option (ℕ → Option String)

namespace Form

/-- `Form::rank()`: the number of argument spaces. -/
def rank (f : Form) : ℕ := f.function_spaces.length

/-- Modelled from the spec: the implementation of
`Form::get_coefficient_index` (Form.cpp) is not under src/; only its
declaration is.  Consults the installed override resolver first, else the
kernel descriptor's built-in map; NotFound (`none`) when unmapped. -/
def get_coefficient_index (f : Form) (name : String) : Option ℕ :=
  match f.coefficient_index_map with
  | some m => m name
  | none => f.coefficients.get_index name

/-- Modelled from the spec: the implementation of
`Form::get_coefficient_name` (Form.cpp) is not under src/; only its
declaration is.  Consults the installed override resolver first, else the
kernel descriptor's built-in map; NotFound (`none`) when unmapped. -/
def get_coefficient_name (f : Form) (i : ℕ) : Option String :=
  match f.coefficient_name_map with
  | some m => m i
  | none => f.coefficients.get_name i

/-- `Form::set_coefficient_index_to_name_map`: installs the name→index
override resolver (stored in `_coefficient_index_map`). -/
def set_coefficient_index_to_name_map (f : Form) (m : String → Option ℕ) : Form :=
  { f with coefficient_index_map := some m }

/-- `Form::set_coefficient_name_to_index_map`: installs the index→name
override resolver (stored in `_coefficient_name_map`). -/
def set_coefficient_name_to_index_map (f : Form) (m : ℕ → Option String) : Form :=
  { f with coefficient_name_map := some m }

/-- Modelled from the spec: the implementation of
`Form::max_element_tensor_size` (Form.cpp) is not under src/; only its
declaration and doc comment are ("If the largest number of per-element dofs
in FunctionSpace i is N_i, then for a linear form this is N_0, and for a
bilinear form, N_0*N_1").  The running product over all argument spaces of
each space's maximum local dof count, starting from 1 (so rank 0 gives 1). -/
def max_element_tensor_size (f : Form) : ℕ :=
  f.function_spaces.foldl (fun n V => n * V.max_element_dofs) 1

end Form

/-! ## Helper lemmas -/

/-- A sequence of `add`s accumulates the sum of the blocks' first entries. -/
theorem Scalar.addAll_value (s : Scalar) (blocks : List (ℕ → ℚ)) :
    (s.addAll blocks).value = s.value + (blocks.map (fun b => b 0)).sum := by
  induction blocks generalizing s with
  | nil => simp [Scalar.addAll]
  | cons b bs ih =>
    have h := ih (s.add b (fun _ => 1) (fun _ _ => 0))
    simp only [Scalar.addAll, List.foldl_cons] at h ⊢
    rw [h]
    simp [Scalar.add]
    ring

/-- `List.set` at one index leaves `getD` at a different index unchanged. -/
theorem getD_set_ne (l : List ℚ) (i j : ℕ) (x : ℚ) (hij : i ≠ j) :
    (l.set i x).getD j 0 = l.getD j 0 := by
  simp [List.getD, List.getElem?_set_ne hij]

/-- `getD` within the left part of an append. -/
theorem getD_append_left (l : List ℚ) (v : ℚ) (a : ℕ) (h : a < l.length) :
    (l ++ [v]).getD a 0 = l.getD a 0 := by
  simp [List.getD, List.getElem?_append_left h]

/-- `getD` at the appended cell. -/
theorem getD_append_length (l : List ℚ) (v : ℚ) :
    (l ++ [v]).getD l.length 0 = v := by
  simp [List.getD]

/-! ## Claims -/

/-- C1: for a ScalarTensor in a distributed group: with more than one
process, `apply(mode)` gathers every process's pre-apply value into a
rank-ordered buffer and replaces every process's value with the rank-ordered
sum of all pre-apply values (pre-apply values {1, 2, 3} on ranks 0, 1, 2
yield 6 on every process); with exactly one process it performs no
communication and leaves the value unchanged. -/
theorem scalar_apply_distributed (mode : String) (preValues : List ℚ) :
    (1 < preValues.length →
      Scalar.applyCollective mode preValues
        = preValues.map (fun _ => preValues.sum))
    ∧ (preValues.length = 1 → Scalar.applyCollective mode preValues = preValues)
    ∧ Scalar.applyCollective "add" [1, 2, 3] = [6, 6, 6] := by
  refine ⟨fun h => ?_, fun h => ?_, by norm_num [Scalar.applyCollective]⟩
  · simp [Scalar.applyCollective, h, ← List.sum_eq_foldl]
  · simp [Scalar.applyCollective, h]

/-- Witness for C1 at concrete inputs: a 3-process group with values
{1, 2, 3} sums to 6 everywhere, and a 1-process group is left unchanged. -/
theorem scalar_apply_distributed_witness :
    (1 < ([1, 2, 3] : List ℚ).length
      ∧ Scalar.applyCollective "add" [1, 2, 3]
          = ([1, 2, 3] : List ℚ).map (fun _ => ([1, 2, 3] : List ℚ).sum))
    ∧ (([5] : List ℚ).length = 1
      ∧ Scalar.applyCollective "x" [5] = [5]) :=
  ⟨⟨by norm_num, (scalar_apply_distributed "add" [1, 2, 3]).1 (by norm_num)⟩,
   ⟨rfl, (scalar_apply_distributed "x" [5]).2.1 rfl⟩⟩

/-- C4: a newly constructed ScalarTensor holds 0, each `add` accumulates
`value += block[0]`, and on a fresh scalar in a single-process group any
sequence of `add`s followed by `apply("add")` leaves the sum of the blocks'
first entries; `add(2); add(3); add(-1); apply("add")` yields 4. -/
theorem scalar_add_sequence_single_process (blocks : List (ℕ → ℚ)) :
    Scalar.new.value = 0
    ∧ (∀ (s : Scalar) (block : ℕ → ℚ) (nr : ℕ → ℕ) (rows : ℕ → ℕ → ℕ),
        (s.add block nr rows).value = s.value + block 0)
    ∧ Scalar.applyCollective "add" [(Scalar.new.addAll blocks).value]
        = [(blocks.map (fun b => b 0)).sum]
    ∧ Scalar.applyCollective "add"
        [(Scalar.new.addAll [fun _ => 2, fun _ => 3, fun _ => -1]).value]
        = [4] := by
  refine ⟨?_, fun s block nr rows => rfl, ?_, ?_⟩
  · simp [Scalar.new]
  · simp [Scalar.applyCollective, Scalar.addAll_value, Scalar.new]
  · norm_num [Scalar.applyCollective, Scalar.addAll, Scalar.add, Scalar.new]

/-- C6: for the rank-0 Scalar realization, both `size(dim)` and
`local_range(dim)` fail with UnsupportedOperationError for every dimension
argument. -/
theorem scalar_size_local_range_unsupported (s : Scalar) (dim : ℕ) :
    s.size dim = .error .UnsupportedOperationError
    ∧ s.local_range dim = .error .UnsupportedOperationError := ⟨rfl, rfl⟩

/-- C7: the three call-shape overloads of `Scalar::add` (flat counts with
pointer-of-pointers indices, index-array-of-pointers, index-array-of-arrays)
have identical semantics: given the same block, each yields the state with
the value increased by `block[0]`, regardless of the index arguments. -/
theorem scalar_add_overloads_identical (s : Scalar) (block : ℕ → ℚ)
    (num_rows : ℕ → ℕ) (rows₁ : ℕ → ℕ → ℕ) (rows₂ rows₃ : List (List ℕ)) :
    s.add block num_rows rows₁ = ⟨s.value + block 0⟩
    ∧ s.addRowPtrs block rows₂ = ⟨s.value + block 0⟩
    ∧ s.addRowVecs block rows₃ = ⟨s.value + block 0⟩ := ⟨rfl, rfl, rfl⟩

/-- C9: `zero()` sets the value to 0, and when every process of an n-process
group zeroes its scalar, `apply("add")` leaves every process's value 0. -/
theorem scalar_zero_then_apply (s : Scalar) (n : ℕ) :
    s.zero.value = 0
    ∧ Scalar.applyCollective "add" (List.replicate n s.zero.value)
        = List.replicate n 0 := by
  refine ⟨rfl, ?_⟩
  by_cases hn : 1 < n <;>
    simp [Scalar.applyCollective, Scalar.zero, hn, ← List.sum_eq_foldl,
      List.map_const']

/-- C5: `resize(rank, dims)` on the fixed-rank-0 Scalar realization fails
with UnsupportedRankError when `rank != 0`, and with `rank == 0` it
reinitializes the value to 0. -/
theorem scalar_resize_fixed_rank (s : Scalar) (r : ℕ) (dims : List ℕ) :
    (r ≠ 0 → s.resize r dims = .error .UnsupportedRankError)
    ∧ s.resize 0 dims = .ok ⟨0⟩ := by
  refine ⟨fun h => ?_, rfl⟩
  simp [Scalar.resize, h]

/-- Witness for C5: `resize(2, …)` on a scalar holding 5 fails with
UnsupportedRankError, and `resize(0, …)` reinitializes. -/
theorem scalar_resize_fixed_rank_witness :
    ((2 : ℕ) ≠ 0
      ∧ Scalar.resize ⟨5⟩ 2 [] = .error .UnsupportedRankError)
    ∧ Scalar.resize ⟨5⟩ 0 [] = .ok ⟨0⟩ :=
  ⟨⟨by norm_num, (scalar_resize_fixed_rank ⟨5⟩ 2 []).1 (by norm_num)⟩,
   (scalar_resize_fixed_rank ⟨5⟩ 2 []).2⟩

/-- C8: `copy()` returns an independent scalar holding the same value, with
no shared mutable state: the copy lives at a fresh address, and every
mutation of the copy (`add`, `set`, `zero`, assignment) leaves the
original's value unchanged, and vice versa. -/
theorem scalar_copy_independent (h : ScalarHeap) (a : ℕ)
    (ha : a < h.store.length) (block : ℕ → ℚ) (v : ℚ) :
    (h.copy a).2 ≠ a
    ∧ (h.copy a).1.read (h.copy a).2 = h.read a
    ∧ (h.copy a).1.read a = h.read a
    ∧ ((h.copy a).1.addAt (h.copy a).2 block).read a = h.read a
    ∧ ((h.copy a).1.setAt (h.copy a).2 block).read a = h.read a
    ∧ ((h.copy a).1.zeroAt (h.copy a).2).read a = h.read a
    ∧ ((h.copy a).1.assignAt (h.copy a).2 v).read a = h.read a
    ∧ ((h.copy a).1.addAt a block).read (h.copy a).2 = h.read a
    ∧ ((h.copy a).1.setAt a block).read (h.copy a).2 = h.read a
    ∧ ((h.copy a).1.zeroAt a).read (h.copy a).2 = h.read a
    ∧ ((h.copy a).1.assignAt a v).read (h.copy a).2 = h.read a := by
  have hne : h.store.length ≠ a := Nat.ne_of_gt ha
  have hne' : a ≠ h.store.length := Nat.ne_of_lt ha
  have hlen : (h.store ++ [h.read a]).length = h.store.length + 1 := by simp
  refine ⟨hne, ?_, ?_, ?_, ?_, ?_, ?_, ?_, ?_, ?_, ?_⟩
  · exact getD_append_length h.store (h.read a)
  · exact getD_append_left h.store (h.read a) a ha
  all_goals
    simp only [ScalarHeap.copy, ScalarHeap.read, ScalarHeap.addAt,
      ScalarHeap.setAt, ScalarHeap.zeroAt, ScalarHeap.assignAt]
  · rw [getD_set_ne _ _ _ _ hne, getD_append_left h.store _ a ha]
  · rw [getD_set_ne _ _ _ _ hne, getD_append_left h.store _ a ha]
  · rw [getD_set_ne _ _ _ _ hne, getD_append_left h.store _ a ha]
  · rw [getD_set_ne _ _ _ _ hne, getD_append_left h.store _ a ha]
  · rw [getD_set_ne _ _ _ _ hne', getD_append_length h.store _]
  · rw [getD_set_ne _ _ _ _ hne', getD_append_length h.store _]
  · rw [getD_set_ne _ _ _ _ hne', getD_append_length h.store _]
  · rw [getD_set_ne _ _ _ _ hne', getD_append_length h.store _]

/-- Witness for C8 at a one-cell heap holding 5: the copy lands at a fresh
address, and an `add` through the copy leaves the original cell at 5. -/
theorem scalar_copy_independent_witness :
    0 < (ScalarHeap.mk [5]).store.length
    ∧ ((ScalarHeap.mk [5]).copy 0).2 ≠ 0
    ∧ (((ScalarHeap.mk [5]).copy 0).1.addAt ((ScalarHeap.mk [5]).copy 0).2
        (fun _ => 2)).read 0 = (ScalarHeap.mk [5]).read 0 :=
  ⟨by norm_num,
   (scalar_copy_independent ⟨[5]⟩ 0 (by norm_num) (fun _ => 2) 7).1,
   (scalar_copy_independent ⟨[5]⟩ 0 (by norm_num) (fun _ => 2) 7).2.2.2.1⟩

/-- C10: `Scalar::apply` ignores its mode argument: for any two mode strings
and any starting state of the group, the resulting values on every process
are identical — only summation semantics are observable. -/
theorem scalar_apply_mode_insensitive (m₁ m₂ : String) (preValues : List ℚ) :
    Scalar.applyCollective m₁ preValues = Scalar.applyCollective m₂ preValues :=
  rfl

/-- C2: `max_element_tensor_size()` equals the exact product over all
argument slots of each argument space's maximum local dof count; a rank-0
form gives 1, and a rank-2 form whose spaces have max dof counts (3, 4)
gives 12. -/
theorem form_max_element_tensor_size (f : Form) :
    f.max_element_tensor_size
      = (f.function_spaces.map FunctionSpace.max_element_dofs).prod
    ∧ (f.rank = 0 → f.max_element_tensor_size = 1)
    ∧ Form.max_element_tensor_size ⟨[], ⟨[]⟩, none, none⟩ = 1
    ∧ Form.max_element_tensor_size ⟨[⟨3⟩, ⟨4⟩], ⟨[]⟩, none, none⟩ = 12 := by
  have hprod : f.max_element_tensor_size
      = (f.function_spaces.map FunctionSpace.max_element_dofs).prod := by
    rw [Form.max_element_tensor_size, List.prod_eq_foldl, List.foldl_map]
  refine ⟨hprod, fun h0 => ?_, rfl, rfl⟩
  have : f.function_spaces = [] := List.length_eq_zero.mp h0
  simp [hprod, this]

/-- Witness for C2: the rank-0 form delivers 1. -/
theorem form_max_element_tensor_size_witness :
    (Form.rank ⟨[], ⟨[]⟩, none, none⟩ = 0)
    ∧ Form.max_element_tensor_size ⟨[], ⟨[]⟩, none, none⟩ = 1 :=
  ⟨rfl, (form_max_element_tensor_size ⟨[], ⟨[]⟩, none, none⟩).2.1 rfl⟩

/-- C3: before any override resolver is installed, coefficient name and
index lookups are mutually inverse on the registered entries
(`get_coefficient_index (get_coefficient_name i) = i` and
`get_coefficient_name (get_coefficient_index n) = n`); after an override
resolver is installed, the corresponding lookup uses the override
exclusively instead of the built-in map. -/
theorem form_coefficient_round_trip (f : Form)
    (h1 : f.coefficient_index_map = none)
    (h2 : f.coefficient_name_map = none)
    (hnd : f.coefficients.names.Nodup) :
    (∀ i n, f.get_coefficient_name i = some n →
      f.get_coefficient_index n = some i)
    ∧ (∀ n i, f.get_coefficient_index n = some i →
      f.get_coefficient_name i = some n)
    ∧ (∀ (m : String → Option ℕ) (name : String),
      (f.set_coefficient_index_to_name_map m).get_coefficient_index name
        = m name)
    ∧ (∀ (m : ℕ → Option String) (i : ℕ),
      (f.set_coefficient_name_to_index_map m).get_coefficient_name i = m i) := by
  refine ⟨fun i n hn => ?_, fun n i hi => ?_, fun m name => rfl, fun m i => rfl⟩
  · rw [Form.get_coefficient_name, h2] at hn
    rw [Form.get_coefficient_index, h1]
    have hi : i < f.coefficients.names.length := by
      by_contra hge
      rw [FormCoefficients.get_name, List.getElem?_eq_none (Nat.le_of_not_lt hge)]
        at hn
      exact Option.noConfusion hn
    rw [FormCoefficients.get_name, List.getElem?_eq_getElem hi] at hn
    have hn' : f.coefficients.names[i] = n := Option.some.inj hn
    rw [FormCoefficients.get_index, if_pos (hn' ▸ List.getElem_mem hi)]
    rw [← hn', List.indexOf_getElem hnd i hi]
  · rw [Form.get_coefficient_index, h1, FormCoefficients.get_index] at hi
    rw [Form.get_coefficient_name, h2, FormCoefficients.get_name]
    by_cases hmem : n ∈ f.coefficients.names
    · rw [if_pos hmem] at hi
      have hi' : f.coefficients.names.indexOf n = i := Option.some.inj hi
      rw [← hi', ← List.get?_eq_getElem?]
      exact List.indexOf_get? hmem
    · rw [if_neg hmem] at hi
      exact Option.noConfusion hi

/-- Witness for C3 on the registry ["a", "b"] with no overrides installed:
the round trip holds at index 1 / name "b". -/
theorem form_coefficient_round_trip_witness :
    (Form.mk [] ⟨["a", "b"]⟩ none none).get_coefficient_index "b" = some 1
    ∧ (Form.mk [] ⟨["a", "b"]⟩ none none).get_coefficient_name 1 = some "b" := by
  have h := form_coefficient_round_trip ⟨[], ⟨["a", "b"]⟩, none, none⟩ rfl rfl
    (by simp)
  exact ⟨h.1 1 "b" rfl, h.2.1 "b" 1 (h.1 1 "b" rfl)⟩

end Dolfin
